import Mathlib

/-!
Verification development for the condo shopping-list client
(`src/App.tsx`, Firestore-backed variant).

The client keeps a Local View (`todos : List Todo`) that mirrors a remote
document collection.  A live subscription delivers whole snapshots which
replace the Local View wholesale; user operations (add / edit / toggle /
drag-reorder) are translated into remote mutation requests.  The
definitions below are a shallow embedding of that logic:

* `Todo` is the client item type (`type Todo` in the source).
* `Doc` is the shape of a remote document as the source declares it in the
  snapshot callback cast (`d.data() as {...}`), plus the `sort` ordering
  field written by the client.  The `price` field keeps a dynamic `JsVal`
  because the source guards it with a runtime `typeof` check.
* `mapDoc` is the snapshot document-to-item mapping (source lines 87-96).
* `applySnapshot` is the subscription callback body: it maps the snapshot
  docs and replaces the Local View (`setTodos(items)`).
* `handleSubmit` is the add/edit form submission (validation, then either
  an `addDoc` payload or an `updateDoc` payload with `deleteField()`
  markers, modelled by `FieldWrite.del`).
* `toggle` issues the fire-and-forget completed-flag write.
* `onDropCard` is the drag-and-drop reorder handler: it splices the
  dragged item to the target index and commits one batch writing
  `sort := index` for every item of the new order.
* `applyField` / `updateDocs` model the remote store applying an update
  to a document (Firestore merge semantics on the declared fields); the
  subscription is latency compensated, so re-mapping the updated docs
  yields the view the client observes before any server confirmation.
-/

namespace Condo

/-- Dynamic Firestore field value (finite numbers only; `serverTimestamp()`
sentinels appear as `timestamp`). -/
inductive JsVal where
  | num (q : ℚ)
  | str (s : String)
  | bool (b : Bool)
  | null
  | timestamp
deriving DecidableEq, Repr

/-- One field of an update payload: either a new value or the
`deleteField()` field-removal marker. -/
inductive FieldWrite where
  | set (v : JsVal)
  | del
deriving DecidableEq, Repr

/-- Remote mutation requests issued by the client: `addDoc`, `updateDoc`,
and a `writeBatch(...).commit()` of per-document updates. -/
inductive RemoteOp where
  | create (fields : List (String × JsVal))
  | update (docId : String) (fields : List (String × FieldWrite))
  | batchCommit (writes : List (String × List (String × FieldWrite)))
deriving DecidableEq, Repr

/-- The client item (`type Todo` in the source, lines 15-24). -/
structure Todo where
  id : String
  name : String
  room : String
  model : Option String
  price : Option ℚ
  imgUrl : Option String
  link : Option String
  completed : Bool
deriving DecidableEq, Repr

/-- A remote document, shaped as the snapshot callback declares it
(source lines 77-86) together with the client-written `sort` field.
`price` is dynamic because the source checks `typeof data.price`. -/
structure Doc where
  name : Option String
  title : Option String
  room : Option String
  model : Option String
  price : Option JsVal
  imgUrl : Option String
  link : Option String
  completed : Option Bool
  sort : Option ℚ
deriving DecidableEq, Repr

/-- The snapshot document-to-item mapping (source lines 87-96):
`name ?? title ?? ''`, `room ?? ''`, optional fields passed through,
`price` kept only when its stored value is a number, `!!completed`. -/
def mapDoc (docId : String) (d : Doc) : Todo :=
  Todo.mk docId
    (d.name.getD (d.title.getD ""))
    (d.room.getD "")
    d.model
    (match d.price with
      | some (JsVal.num q) => some q
      | _ => none)
    d.imgUrl
    d.link
    (d.completed.getD false)

/-- Map a whole snapshot (id-keyed docs) to Local View items
(`snap.docs.map(...)`, source lines 76-97). -/
def docsToItems (docs : List (String × Doc)) : List Todo :=
  docs.map (fun p => mapDoc p.1 p.2)

/-- The subscription callback (source lines 75-99): the previous Local
View is discarded and replaced by the mapped snapshot, `setTodos(items)`. -/
def applySnapshot (_prev : List Todo) (docs : List (String × Doc)) : List Todo :=
  docsToItems docs

/-- Position of a delivered document (its `sort` field; the query orders by
this field ascending, so delivered snapshots are sorted on it). -/
def sortVal (p : String × Doc) : ℚ :=
  p.2.sort.getD 0

/-- Apply one update-payload field to a remote document (the remote
store's merge semantics restricted to the fields this client writes).
Writes whose value shape does not match the declared field type never
occur in this client and leave the document unchanged. -/
def applyField (d : Doc) (fw : String × FieldWrite) : Doc :=
  match fw with
  | ("name", FieldWrite.set (JsVal.str s)) => { d with name := some s }
  | ("room", FieldWrite.set (JsVal.str s)) => { d with room := some s }
  | ("model", FieldWrite.set (JsVal.str s)) => { d with model := some s }
  | ("model", FieldWrite.del) => { d with model := none }
  | ("price", FieldWrite.set v) => { d with price := some v }
  | ("price", FieldWrite.del) => { d with price := none }
  | ("imgUrl", FieldWrite.set (JsVal.str s)) => { d with imgUrl := some s }
  | ("imgUrl", FieldWrite.del) => { d with imgUrl := none }
  | ("link", FieldWrite.set (JsVal.str s)) => { d with link := some s }
  | ("link", FieldWrite.del) => { d with link := none }
  | ("completed", FieldWrite.set (JsVal.bool b)) => { d with completed := some b }
  | ("sort", FieldWrite.set (JsVal.num q)) => { d with sort := some q }
  | _ => d

/-- Apply a whole `updateDoc` payload to a document. -/
def applyUpdate (d : Doc) (fields : List (String × FieldWrite)) : Doc :=
  fields.foldl applyField d

/-- Apply an `updateDoc(doc(db, col, docId), fields)` to the store's
documents (latency-compensated local cache included). -/
def updateDocs (docs : List (String × Doc)) (docId : String)
    (fields : List (String × FieldWrite)) : List (String × Doc) :=
  docs.map (fun p => if p.1 = docId then (p.1, applyUpdate p.2 fields) else p)

/-- How an async remote write reacts to failure. -/
structure FailureHandling where
  logsWarning : Bool
  retries : ℕ
deriving DecidableEq, Repr

/-- `toggle` failure behavior: `.catch(err => console.warn(...))`,
a logged warning and no retry (source lines 215-217). -/
def toggleFailureHandling : FailureHandling :=
  FailureHandling.mk true 0

/-- The `toggle(id)` handler (source lines 212-218): find the item in the
Local View and issue a single fire-and-forget `updateDoc` flipping
`completed`; nothing is issued when the id is absent. -/
def toggle (todos : List Todo) (docId : String) : List RemoteOp :=
  match todos.find? (fun t => t.id == docId) with
  | none => []
  | some t => [RemoteOp.update docId
      [("completed", FieldWrite.set (JsVal.bool (!t.completed)))]]

/-- The add/edit modal form fields (kept as raw strings, as in the
source component state), plus `editId`. -/
structure FormState where
  name : String
  room : String
  model : String
  price : String
  imgUrl : String
  link : String
  editId : Option String
deriving DecidableEq, Repr

/-- Result of a form submission: the user-facing error (if any), the
remote operations issued, and the Local View afterwards (`handleSubmit`
never mutates `todos`; the view changes only via snapshots). -/
structure SubmitResult where
  error : Option String
  ops : List RemoteOp
  todos : List Todo
deriving DecidableEq, Repr

/-- Models JS `String.prototype.trim` (strip whitespace from both ends);
defined over the character list so that it evaluates in the kernel. -/
def jsTrim (s : String) : String :=
  String.mk (((s.data.dropWhile Char.isWhitespace).reverse.dropWhile
    Char.isWhitespace).reverse)

/-- The `handleSubmit` handler (source lines 145-210), parameterized by
the external JS builtins it calls: `pf` models `Number.parseFloat`
(`none` encodes `NaN`) and `vUrl` models `new URL(u)` succeeding.
Validation failures return the user-facing message and issue no remote
operation; otherwise an edit issues one `updateDoc` whose cleared
optional fields carry `deleteField()` markers, and an add issues one
`addDoc` whose payload appends `sort: todos.length`. -/
def handleSubmit (pf : String → Option ℚ) (vUrl : String → Bool)
    (todos : List Todo) (f : FormState) : SubmitResult :=
  let n := jsTrim f.name
  let rm := jsTrim f.room
  let m := jsTrim f.model
  let priceText := jsTrim f.price
  let p : Option ℚ := if priceText = "" then none else pf priceText
  let img := jsTrim f.imgUrl
  let lnk := jsTrim f.link
  if n = "" then
    SubmitResult.mk (some "Naziv je obavezan.") [] todos
  else if rm = "" then
    SubmitResult.mk (some "Izaberite prostoriju.") [] todos
  else if priceText ≠ "" ∧ p = none then
    SubmitResult.mk (some "Cena mora biti broj (ako je navedena).") [] todos
  else if (img ≠ "" ∧ vUrl img = false) ∨ (lnk ≠ "" ∧ vUrl lnk = false) then
    SubmitResult.mk (some "Unesite ispravne URL-ove za sliku i link (ako su navedeni).") [] todos
  else
    match f.editId with
    | some eid => SubmitResult.mk none
        [RemoteOp.update eid
          [("name", FieldWrite.set (JsVal.str n)),
           ("room", FieldWrite.set (JsVal.str rm)),
           ("model", if m = "" then FieldWrite.del else FieldWrite.set (JsVal.str m)),
           ("price", match p with
             | some q => FieldWrite.set (JsVal.num q)
             | none => FieldWrite.del),
           ("imgUrl", if img = "" then FieldWrite.del else FieldWrite.set (JsVal.str img)),
           ("link", if lnk = "" then FieldWrite.del else FieldWrite.set (JsVal.str lnk))]]
        todos
    | none => SubmitResult.mk none
        [RemoteOp.create
          ([("name", JsVal.str n), ("room", JsVal.str rm),
            ("completed", JsVal.bool false), ("createdAt", JsVal.timestamp)]
           ++ (if m = "" then [] else [("model", JsVal.str m)])
           ++ (match p with
             | some q => [("price", JsVal.num q)]
             | none => [])
           ++ (if img = "" then [] else [("imgUrl", JsVal.str img)])
           ++ (if lnk = "" then [] else [("link", JsVal.str lnk)])
           ++ [("sort", JsVal.num (todos.length : ℚ))])]
        todos

/-- The drag-and-drop drop handler (source lines 271-290).  JS guards:
`!draggingId` (null or empty string) and self-drop return early, as do
absent ids (`findIndex` returning -1).  Otherwise the dragged item is
spliced out of its source index and into the destination index (computed
on the pre-removal list), the Local View is replaced, and one write batch
sets `sort := index` for every item of the new order.  The inner
`none` branch for the fetched element is unreachable once `findIdx?`
succeeds and mirrors the JS destructuring of `splice`. -/
def onDropCard (draggingId : Option String) (targetId : String)
    (todos : List Todo) : List Todo × List RemoteOp :=
  match draggingId with
  | none => (todos, [])
  | some dId =>
    if dId = "" ∨ dId = targetId then (todos, [])
    else
      match todos.findIdx? (fun t => t.id == dId),
            todos.findIdx? (fun t => t.id == targetId) with
      | some srcIdx, some dstIdx =>
        match todos[srcIdx]? with
        | some moved =>
          let newList := (todos.eraseIdx srcIdx).insertIdx dstIdx moved
          (newList,
           [RemoteOp.batchCommit (newList.enum.map
             (fun p => (p.2.id, [("sort", FieldWrite.set (JsVal.num (p.1 : ℚ)))])))])
        | none => (todos, [])
      | _, _ => (todos, [])

/-- A bare test item with a given id (used by concrete instances). -/
def mkTodo (i : String) : Todo :=
  Todo.mk i "" "" none none none none false

/-- The documents a snapshot of `query(collection(db, col), orderBy('sort',
'asc'))` delivers: only documents that have the ordered field, ascending by
its value (Firestore excludes documents missing an `orderBy` field). -/
def queryDocs (store : List (String × Doc)) : List (String × Doc) :=
  (store.filter (fun p => p.2.sort.isSome)).mergeSort
    (fun p q => decide (sortVal p ≤ sortVal q))

/-- C10: the snapshot document-to-item mapping is total (a Lean function)
and applies the defaults of the source: the display name falls back from
`name` to `title` and then to the empty string, `completed` is coerced to
a boolean that is `false` when absent, `price` is kept exactly when the
stored value is a number (dropped for strings, booleans, nulls, or when
absent), and the optional fields `model`, `imgUrl`, `link` pass through,
so absent fields stay absent on the item. -/
theorem mapDoc_total_defaults (docId : String) (d : Doc) :
    (mapDoc docId d).id = docId ∧
    (mapDoc docId d).name = d.name.getD (d.title.getD "") ∧
    (mapDoc docId d).completed = d.completed.getD false ∧
    (∀ q : ℚ, (mapDoc docId d).price = some q ↔ d.price = some (JsVal.num q)) ∧
    (mapDoc docId d).model = d.model ∧
    (mapDoc docId d).imgUrl = d.imgUrl ∧
    (mapDoc docId d).link = d.link := by
  refine ⟨rfl, rfl, rfl, ?_, rfl, rfl, rfl⟩
  intro q
  cases hp : d.price with
  | none => simp [mapDoc, hp]
  | some v => cases v <;> simp [mapDoc, hp]

/-- C4: processing a delivered snapshot replaces the entire Local View
with the snapshot's item set in the snapshot's order, which is ascending
in the `sort` position field; any prior (possibly optimistic) Local View
is discarded, so the result is independent of the previous state
(remote-overwrites-local). -/
theorem applySnapshot_replaces_view (prev prev' : List Todo)
    (store : List (String × Doc)) :
    applySnapshot prev (queryDocs store) = applySnapshot prev' (queryDocs store) ∧
    applySnapshot prev (queryDocs store) = docsToItems (queryDocs store) ∧
    List.Pairwise (fun p q => sortVal p ≤ sortVal q) (queryDocs store) ∧
    (queryDocs store).Perm (store.filter (fun p => p.2.sort.isSome)) ∧
    ∀ i : ℕ, (applySnapshot prev (queryDocs store))[i]? =
      (queryDocs store)[i]?.map (fun p => mapDoc p.1 p.2) := by
  refine ⟨rfl, rfl, ?_, List.mergeSort_perm _ _, ?_⟩
  · have h := @List.sorted_mergeSort (String × Doc)
      (fun p q => decide (sortVal p ≤ sortVal q))
      (fun a b c h1 h2 => decide_eq_true
        (le_trans (of_decide_eq_true h1) (of_decide_eq_true h2)))
      (fun a b => by
        rcases le_total (sortVal a) (sortVal b) with h | h <;>
          simp [decide_eq_true_eq, h])
      (store.filter (fun p => p.2.sort.isSome))
    exact h.imp (fun hab => of_decide_eq_true hab)
  · intro i
    simp [applySnapshot, docsToItems]

/-- C9: the drop handler is a no-op, leaving the Local View unchanged and
issuing no batch write, when no drag is in progress, when an item is
dropped onto itself, or when the dragged or the target id is not present
in the current list. -/
theorem onDropCard_noop (todos : List Todo) (dId tId : String) :
    onDropCard none tId todos = (todos, []) ∧
    onDropCard (some tId) tId todos = (todos, []) ∧
    ((∀ t ∈ todos, t.id ≠ dId) → onDropCard (some dId) tId todos = (todos, [])) ∧
    ((∀ t ∈ todos, t.id ≠ tId) → onDropCard (some dId) tId todos = (todos, [])) := by
  refine ⟨rfl, ?_, ?_, ?_⟩
  · show (if tId = "" ∨ tId = tId then _ else _) = (todos, [])
    rw [if_pos (Or.inr rfl)]
  · intro h
    by_cases hguard : dId = "" ∨ dId = tId
    · show (if dId = "" ∨ dId = tId then _ else _) = (todos, [])
      rw [if_pos hguard]
    · have hnone : todos.findIdx? (fun t => t.id == dId) = none :=
        List.findIdx?_eq_none_iff.mpr (fun x hx => by simp [h x hx])
      show (if dId = "" ∨ dId = tId then _ else _) = (todos, [])
      rw [if_neg hguard]
      rw [hnone]
  · intro h
    by_cases hguard : dId = "" ∨ dId = tId
    · show (if dId = "" ∨ dId = tId then _ else _) = (todos, [])
      rw [if_pos hguard]
    · have hnone : todos.findIdx? (fun t => t.id == tId) = none :=
        List.findIdx?_eq_none_iff.mpr (fun x hx => by simp [h x hx])
      show (if dId = "" ∨ dId = tId then _ else _) = (todos, [])
      rw [if_neg hguard]
      rw [hnone]
      cases hfd : todos.findIdx? (fun t => t.id == dId) <;> simp [hfd]

/-- C9 witness: on the one-element list with id `a`, a no-drag drop, a
self-drop, and a drop whose dragged id `x` is absent all leave the list
unchanged and issue no write. -/
theorem onDropCard_noop_witness :
    onDropCard none "a" [mkTodo "a"] = ([mkTodo "a"], []) ∧
    onDropCard (some "a") "a" [mkTodo "a"] = ([mkTodo "a"], []) ∧
    onDropCard (some "x") "a" [mkTodo "a"] = ([mkTodo "a"], []) := by
  obtain ⟨h1, h2, h3, _⟩ := onDropCard_noop [mkTodo "a"] "x" "a"
  exact ⟨h1, h2, h3 (by decide)⟩

/-- C2 counterexample: the reorder batch is not the minimal set of
position writes.  With items `a, b, c` and `c` dragged onto `b`, the new
order is `a, c, b`; item `a` keeps position 0 (it is first both before
and after), yet the committed batch still contains a position write for
`a`. -/
theorem onDropCard_batch_not_minimal :
    (onDropCard (some "c") "b" [mkTodo "a", mkTodo "b", mkTodo "c"]).1 =
      [mkTodo "a", mkTodo "c", mkTodo "b"] ∧
    (onDropCard (some "c") "b" [mkTodo "a", mkTodo "b", mkTodo "c"]).2 =
      [RemoteOp.batchCommit
        [("a", [("sort", FieldWrite.set (JsVal.num 0))]),
         ("c", [("sort", FieldWrite.set (JsVal.num 1))]),
         ("b", [("sort", FieldWrite.set (JsVal.num 2))])]] ∧
    [mkTodo "a", mkTodo "b", mkTodo "c"][0]? = some (mkTodo "a") ∧
    (onDropCard (some "c") "b" [mkTodo "a", mkTodo "b", mkTodo "c"]).1[0]? =
      some (mkTodo "a") := by
  decide

/-- C5 counterexample: reordering is not idempotent under re-application.
For `a, b, c` with `c` dragged onto `a` the first application produces
`c, a, b`; applying the same gesture to that list again produces
`a, c, b`, a further change of every position. -/
theorem onDropCard_not_idempotent :
    (onDropCard (some "c") "a" [mkTodo "a", mkTodo "b", mkTodo "c"]).1 =
      [mkTodo "c", mkTodo "a", mkTodo "b"] ∧
    (onDropCard (some "c") "a" [mkTodo "c", mkTodo "a", mkTodo "b"]).1 =
      [mkTodo "a", mkTodo "c", mkTodo "b"] ∧
    (onDropCard (some "c") "a" [mkTodo "c", mkTodo "a", mkTodo "b"]).1 ≠
      [mkTodo "c", mkTodo "a", mkTodo "b"] := by
  decide

/-- Unfolding step of an update payload application. -/
theorem applyUpdate_cons (d : Doc) (a : String × FieldWrite)
    (l : List (String × FieldWrite)) :
    applyUpdate d (a :: l) = applyUpdate (applyField d a) l := rfl

/-- A payload field whose name is not `price` leaves the document's
`price` unchanged. -/
theorem applyField_preserves_price (d : Doc) (fw : String × FieldWrite)
    (h : fw.1 ≠ "price") : (applyField d fw).price = d.price := by
  unfold applyField
  split <;> simp_all

/-- An update payload none of whose fields is named `price` leaves the
document's `price` unchanged. -/
theorem applyUpdate_preserves_price (d : Doc) (l : List (String × FieldWrite))
    (h : ∀ fw ∈ l, fw.1 ≠ "price") : (applyUpdate d l).price = d.price := by
  induction l generalizing d with
  | nil => rfl
  | cons a tl ih =>
    rw [applyUpdate_cons, ih _ (fun fw hfw => h fw (List.mem_cons_of_mem a hfw)),
      applyField_preserves_price d a (h a (List.mem_cons_self a tl))]

/-- C8: add or edit submissions with invalid input (missing name, missing
room, non-parseable price, malformed image or link URL) are rejected
before any remote call: a user-facing message is produced, no remote
operation is issued, and the Local View is unchanged. -/
theorem handleSubmit_rejects_invalid (pf : String → Option ℚ)
    (vUrl : String → Bool) (todos : List Todo) (f : FormState)
    (hbad : jsTrim f.name = "" ∨ jsTrim f.room = "" ∨
      (jsTrim f.price ≠ "" ∧ pf (jsTrim f.price) = none) ∨
      (jsTrim f.imgUrl ≠ "" ∧ vUrl (jsTrim f.imgUrl) = false) ∨
      (jsTrim f.link ≠ "" ∧ vUrl (jsTrim f.link) = false)) :
    ∃ msg, handleSubmit pf vUrl todos f = SubmitResult.mk (some msg) [] todos := by
  by_cases h1 : jsTrim f.name = ""
  · exact ⟨"Naziv je obavezan.", by simp [handleSubmit, h1]⟩
  by_cases h2 : jsTrim f.room = ""
  · exact ⟨"Izaberite prostoriju.", by simp [handleSubmit, h1, h2]⟩
  by_cases hpt : jsTrim f.price = ""
  · rcases hbad with h | h | h | h | h
    · exact absurd h h1
    · exact absurd h h2
    · exact absurd hpt h.1
    · exact ⟨"Unesite ispravne URL-ove za sliku i link (ako su navedeni).",
        by simp [handleSubmit, h1, h2, hpt, h.1, h.2]⟩
    · exact ⟨"Unesite ispravne URL-ove za sliku i link (ako su navedeni).",
        by simp [handleSubmit, h1, h2, hpt, h.1, h.2]⟩
  · by_cases hpf : pf (jsTrim f.price) = none
    · exact ⟨"Cena mora biti broj (ako je navedena).",
        by simp [handleSubmit, h1, h2, hpt, hpf]⟩
    · rcases hbad with h | h | h | h | h
      · exact absurd h h1
      · exact absurd h h2
      · exact absurd h.2 hpf
      · exact ⟨"Unesite ispravne URL-ove za sliku i link (ako su navedeni).",
          by simp [handleSubmit, h1, h2, hpt, hpf, h.1, h.2]⟩
      · exact ⟨"Unesite ispravne URL-ove za sliku i link (ako su navedeni).",
          by simp [handleSubmit, h1, h2, hpt, hpf, h.1, h.2]⟩

/-- C8 witness: a submission with an empty name (all else benign) is
rejected with a message, issues no remote operation, and leaves the
Local View unchanged. -/
theorem handleSubmit_rejects_invalid_witness :
    ∃ msg, handleSubmit (fun _ => none) (fun _ => true) []
      (FormState.mk "" "Kuhinja" "" "" "" "" none) =
      SubmitResult.mk (some msg) [] [] :=
  handleSubmit_rejects_invalid (fun _ => none) (fun _ => true) []
    (FormState.mk "" "Kuhinja" "" "" "" "" none) (Or.inl (by decide))

/-- C6: a valid add submission issues exactly one create request whose
payload's final field is `sort` with value equal to the number of items
currently in the Local View of the target collection (append-at-end),
produces no error, and does not itself mutate the Local View. -/
theorem handleSubmit_add_appends (pf : String → Option ℚ)
    (vUrl : String → Bool) (todos : List Todo) (f : FormState)
    (hedit : f.editId = none)
    (hn : jsTrim f.name ≠ "") (hr : jsTrim f.room ≠ "")
    (hp : jsTrim f.price = "" ∨ (pf (jsTrim f.price)).isSome = true)
    (hi : jsTrim f.imgUrl = "" ∨ vUrl (jsTrim f.imgUrl) = true)
    (hl : jsTrim f.link = "" ∨ vUrl (jsTrim f.link) = true) :
    (handleSubmit pf vUrl todos f).error = none ∧
    (handleSubmit pf vUrl todos f).todos = todos ∧
    ∃ payload, (handleSubmit pf vUrl todos f).ops = [RemoteOp.create payload] ∧
      payload.getLast? = some ("sort", JsVal.num (todos.length : ℚ)) := by
  have hguard3 : ¬(jsTrim f.price ≠ "" ∧
      (if jsTrim f.price = "" then (none : Option ℚ) else pf (jsTrim f.price)) = none) := by
    rintro ⟨hne, hnone⟩
    rw [if_neg hne] at hnone
    rcases hp with h | h
    · exact hne h
    · rw [hnone] at h
      simp at h
  have hguard4 : ¬((jsTrim f.imgUrl ≠ "" ∧ vUrl (jsTrim f.imgUrl) = false) ∨
      (jsTrim f.link ≠ "" ∧ vUrl (jsTrim f.link) = false)) := by
    rintro (⟨hne, hv⟩ | ⟨hne, hv⟩)
    · rcases hi with h | h
      · exact hne h
      · rw [h] at hv
        cases hv
    · rcases hl with h | h
      · exact hne h
      · rw [h] at hv
        cases hv
  have hred : handleSubmit pf vUrl todos f = SubmitResult.mk none
      [RemoteOp.create
        ([("name", JsVal.str (jsTrim f.name)), ("room", JsVal.str (jsTrim f.room)),
          ("completed", JsVal.bool false), ("createdAt", JsVal.timestamp)]
         ++ (if jsTrim f.model = "" then [] else [("model", JsVal.str (jsTrim f.model))])
         ++ (match (if jsTrim f.price = "" then (none : Option ℚ) else pf (jsTrim f.price)) with
           | some q => [("price", JsVal.num q)]
           | none => [])
         ++ (if jsTrim f.imgUrl = "" then [] else [("imgUrl", JsVal.str (jsTrim f.imgUrl))])
         ++ (if jsTrim f.link = "" then [] else [("link", JsVal.str (jsTrim f.link))])
         ++ [("sort", JsVal.num (todos.length : ℚ))])] todos := by
    simp only [handleSubmit]
    rw [if_neg hn, if_neg hr, if_neg hguard3, if_neg hguard4, hedit]
  refine ⟨by rw [hred], by rw [hred], _, by rw [hred], ?_⟩
  exact List.getLast?_concat _

/-- C6 witness: adding a valid item while the Local View holds three
items assigns the new document `sort = 3`. -/
theorem handleSubmit_add_appends_witness :
    (handleSubmit (fun _ => none) (fun _ => true)
      [mkTodo "a", mkTodo "b", mkTodo "c"]
      (FormState.mk "Milk" "Kuhinja" "" "" "" "" none)).error = none ∧
    ∃ payload,
      (handleSubmit (fun _ => none) (fun _ => true)
        [mkTodo "a", mkTodo "b", mkTodo "c"]
        (FormState.mk "Milk" "Kuhinja" "" "" "" "" none)).ops =
        [RemoteOp.create payload] ∧
      payload.getLast? = some ("sort", JsVal.num 3) := by
  obtain ⟨herr, -, payload, hops, hlast⟩ :=
    handleSubmit_add_appends (fun _ => none) (fun _ => true)
      [mkTodo "a", mkTodo "b", mkTodo "c"]
      (FormState.mk "Milk" "Kuhinja" "" "" "" "" none)
      rfl (by decide) (by decide) (Or.inl (by decide)) (Or.inl (by decide))
      (Or.inl (by decide))
  refine ⟨herr, payload, hops, ?_⟩
  simpa using hlast

/-- C7: a valid edit submission issues exactly one update; each optional
field (model, price, image URL, link) whose form value is cleared is sent
as an explicit field-removal instruction (`deleteField()`), never as a
null or zero value, and applying the update with a cleared price removes
the `price` field from the document entirely. -/
theorem handleSubmit_edit_removes_cleared (pf : String → Option ℚ)
    (vUrl : String → Bool) (todos : List Todo) (f : FormState) (eid : String)
    (hedit : f.editId = some eid)
    (hn : jsTrim f.name ≠ "") (hr : jsTrim f.room ≠ "")
    (hp : jsTrim f.price = "" ∨ (pf (jsTrim f.price)).isSome = true)
    (hi : jsTrim f.imgUrl = "" ∨ vUrl (jsTrim f.imgUrl) = true)
    (hl : jsTrim f.link = "" ∨ vUrl (jsTrim f.link) = true) :
    (handleSubmit pf vUrl todos f).error = none ∧
    (handleSubmit pf vUrl todos f).todos = todos ∧
    ∃ flds, (handleSubmit pf vUrl todos f).ops = [RemoteOp.update eid flds] ∧
      (jsTrim f.model = "" → flds[2]? = some ("model", FieldWrite.del)) ∧
      (jsTrim f.price = "" → flds[3]? = some ("price", FieldWrite.del) ∧
        ∀ d : Doc, (applyUpdate d flds).price = none) ∧
      (jsTrim f.imgUrl = "" → flds[4]? = some ("imgUrl", FieldWrite.del)) ∧
      (jsTrim f.link = "" → flds[5]? = some ("link", FieldWrite.del)) ∧
      ∀ (j : ℕ) (s : String) (w : JsVal),
        flds[j]? = some (s, FieldWrite.set w) → w ≠ JsVal.null := by
  have hguard3 : ¬(jsTrim f.price ≠ "" ∧
      (if jsTrim f.price = "" then (none : Option ℚ) else pf (jsTrim f.price)) = none) := by
    rintro ⟨hne, hnone⟩
    rw [if_neg hne] at hnone
    rcases hp with h | h
    · exact hne h
    · rw [hnone] at h
      simp at h
  have hguard4 : ¬((jsTrim f.imgUrl ≠ "" ∧ vUrl (jsTrim f.imgUrl) = false) ∨
      (jsTrim f.link ≠ "" ∧ vUrl (jsTrim f.link) = false)) := by
    rintro (⟨hne, hv⟩ | ⟨hne, hv⟩)
    · rcases hi with h | h
      · exact hne h
      · rw [h] at hv
        cases hv
    · rcases hl with h | h
      · exact hne h
      · rw [h] at hv
        cases hv
  have hred : handleSubmit pf vUrl todos f = SubmitResult.mk none
      [RemoteOp.update eid
        [("name", FieldWrite.set (JsVal.str (jsTrim f.name))),
         ("room", FieldWrite.set (JsVal.str (jsTrim f.room))),
         ("model", if jsTrim f.model = "" then FieldWrite.del
           else FieldWrite.set (JsVal.str (jsTrim f.model))),
         ("price", match (if jsTrim f.price = "" then (none : Option ℚ)
             else pf (jsTrim f.price)) with
           | some q => FieldWrite.set (JsVal.num q)
           | none => FieldWrite.del),
         ("imgUrl", if jsTrim f.imgUrl = "" then FieldWrite.del
           else FieldWrite.set (JsVal.str (jsTrim f.imgUrl))),
         ("link", if jsTrim f.link = "" then FieldWrite.del
           else FieldWrite.set (JsVal.str (jsTrim f.link)))]] todos := by
    simp only [handleSubmit]
    rw [if_neg hn, if_neg hr, if_neg hguard3, if_neg hguard4, hedit]
  refine ⟨by rw [hred], by rw [hred], _, by rw [hred], ?_, ?_, ?_, ?_, ?_⟩
  · intro hm
    simp [hm]
  · intro hpe
    constructor
    · simp [hpe]
    · intro d
      rw [applyUpdate_cons, applyUpdate_cons, applyUpdate_cons]
      simp only [hpe, if_pos rfl]
      rw [applyUpdate_cons]
      rw [applyUpdate_preserves_price _ _ (by
        rintro fw hfw
        simp only [List.mem_cons, List.mem_singleton] at hfw
        rcases hfw with rfl | rfl | h
        · show ("imgUrl" : String) ≠ "price"
          decide
        · show ("link" : String) ≠ "price"
          decide
        · cases h)]
      rfl
  · intro hie
    simp [hie]
  · intro hle
    simp [hle]
  · intro j s w h
    match j with
    | 0 =>
      simp only [List.getElem?_cons_zero, Option.some.injEq, Prod.mk.injEq] at h
      obtain ⟨-, hw⟩ := h
      cases hw
      simp
    | 1 =>
      simp only [List.getElem?_cons_succ, List.getElem?_cons_zero,
        Option.some.injEq, Prod.mk.injEq] at h
      obtain ⟨-, hw⟩ := h
      cases hw
      simp
    | 2 =>
      simp only [List.getElem?_cons_succ, List.getElem?_cons_zero,
        Option.some.injEq, Prod.mk.injEq] at h
      by_cases hm : jsTrim f.model = ""
      · rw [if_pos hm] at h
        rcases h with ⟨-, hw⟩
        cases hw
      · rw [if_neg hm] at h
        obtain ⟨-, hw⟩ := h
        cases hw
        simp
    | 3 =>
      simp only [List.getElem?_cons_succ, List.getElem?_cons_zero,
        Option.some.injEq, Prod.mk.injEq] at h
      by_cases hpt : jsTrim f.price = ""
      · rw [if_pos hpt] at h
        obtain ⟨-, hw⟩ := h
        simp at hw
      · rw [if_neg hpt] at h
        cases hpf : pf (jsTrim f.price) with
        | none =>
          rw [hpf] at h
          obtain ⟨-, hw⟩ := h
          simp at hw
        | some q =>
          rw [hpf] at h
          obtain ⟨-, hw⟩ := h
          cases hw
          simp
    | 4 =>
      simp only [List.getElem?_cons_succ, List.getElem?_cons_zero,
        Option.some.injEq, Prod.mk.injEq] at h
      by_cases hie : jsTrim f.imgUrl = ""
      · rw [if_pos hie] at h
        rcases h with ⟨-, hw⟩
        cases hw
      · rw [if_neg hie] at h
        obtain ⟨-, hw⟩ := h
        cases hw
        simp
    | 5 =>
      simp only [List.getElem?_cons_succ, List.getElem?_cons_zero,
        Option.some.injEq, Prod.mk.injEq] at h
      by_cases hle : jsTrim f.link = ""
      · rw [if_pos hle] at h
        rcases h with ⟨-, hw⟩
        cases hw
      · rw [if_neg hle] at h
        obtain ⟨-, hw⟩ := h
        cases hw
        simp
    | (n + 6) =>
      simp at h

/-- C7 witness: editing item `e1` with all optional fields cleared issues
one update whose `price` entry is the removal marker, and applying that
update to any document leaves it without a `price` field. -/
theorem handleSubmit_edit_removes_cleared_witness :
    ∃ flds,
      (handleSubmit (fun _ => none) (fun _ => true) []
        (FormState.mk "Lampa" "Hodnik" "" "" "" "" (some "e1"))).ops =
        [RemoteOp.update "e1" flds] ∧
      flds[3]? = some ("price", FieldWrite.del) ∧
      ∀ d : Doc, (applyUpdate d flds).price = none := by
  obtain ⟨-, -, flds, hops, -, hpc, -, -, -⟩ :=
    handleSubmit_edit_removes_cleared (fun _ => none) (fun _ => true) []
      (FormState.mk "Lampa" "Hodnik" "" "" "" "" (some "e1")) "e1"
      rfl (by decide) (by decide) (Or.inl (by decide)) (Or.inl (by decide))
      (Or.inl (by decide))
  obtain ⟨h3, h4⟩ := hpc (by decide)
  exact ⟨flds, hops, h3, h4⟩

/-- C3: for an item id present in the Local View, `toggle(id)` issues
exactly one remote write setting `completed` to the negation of the
item's current flag; the latency-compensated subscription (re-mapping the
updated documents, before any server confirmation) shows exactly that
item with its flag flipped and every other item unchanged.  The write is
fire-and-forget: its failure handler only logs a warning and never
retries. -/
theorem toggle_optimistic_flip (docs : List (String × Doc)) (docId : String)
    (t : Todo) (ht : (docsToItems docs).find? (fun x => x.id == docId) = some t) :
    toggle (docsToItems docs) docId =
      [RemoteOp.update docId
        [("completed", FieldWrite.set (JsVal.bool (!t.completed)))]] ∧
    docsToItems (updateDocs docs docId
        [("completed", FieldWrite.set (JsVal.bool (!t.completed)))]) =
      (docsToItems docs).map
        (fun x => if x.id = docId then { x with completed := !t.completed } else x) ∧
    toggleFailureHandling.logsWarning = true ∧
    toggleFailureHandling.retries = 0 := by
  refine ⟨?_, ?_, rfl, rfl⟩
  · unfold toggle
    rw [ht]
  · simp only [docsToItems, updateDocs, List.map_map]
    congr 1
    funext p
    simp only [Function.comp]
    by_cases hid : p.1 = docId
    · rw [if_pos hid, if_pos (show (mapDoc p.1 p.2).id = docId from hid)]
      rfl
    · rw [if_neg hid, if_neg (show ¬(mapDoc p.1 p.2).id = docId from hid)]

/-- C3 witness: on a one-document store whose item `a` is not completed,
`toggle` issues the single write setting `completed := true`, and the
re-mapped view shows `a` completed. -/
theorem toggle_optimistic_flip_witness :
    toggle (docsToItems [("a", Doc.mk none none none none none none none
        (some false) (some 0))]) "a" =
      [RemoteOp.update "a"
        [("completed", FieldWrite.set (JsVal.bool true))]] ∧
    docsToItems (updateDocs [("a", Doc.mk none none none none none none none
        (some false) (some 0))] "a"
        [("completed", FieldWrite.set (JsVal.bool true))]) =
      (docsToItems [("a", Doc.mk none none none none none none none
        (some false) (some 0))]).map
        (fun x => if x.id = "a" then { x with completed := true } else x) := by
  obtain ⟨h1, h2, -, -⟩ :=
    toggle_optimistic_flip
      [("a", Doc.mk none none none none none none none (some false) (some 0))]
      "a" (mkTodo "a") (by decide)
  exact ⟨h1, h2⟩

/-- Characterization of a successful drop: when the guards pass and both
ids are found, the handler splices the dragged item and issues one batch
that maps every item of the new order to a `sort := index` write. -/
theorem onDropCard_eq_of_found (todos : List Todo) (dId tId : String)
    (s d : ℕ) (moved : Todo) (h0 : dId ≠ "") (hne : dId ≠ tId)
    (hs : todos.findIdx? (fun t => t.id == dId) = some s)
    (ht : todos.findIdx? (fun t => t.id == tId) = some d)
    (hm : todos[s]? = some moved) :
    onDropCard (some dId) tId todos =
      ((todos.eraseIdx s).insertIdx d moved,
       [RemoteOp.batchCommit (((todos.eraseIdx s).insertIdx d moved).enum.map
         (fun p => (p.2.id, [("sort", FieldWrite.set (JsVal.num (p.1 : ℚ)))])))]) := by
  show (if dId = "" ∨ dId = tId then _ else _) = _
  rw [if_neg (by rintro (h | h); exacts [h0 h, hne h])]
  simp only [hs, ht, hm]

/-- C1: a drag gesture whose dragged item sits at source index `s` and
whose target sits at index `d` replaces the list by the splice that
removes the item at `s` and reinserts it at `d`, and commits one batch
assigning every item of the resulting order the integer position equal to
its 0-based index (contiguous and gapless). -/
theorem onDropCard_reorders (todos : List Todo) (dId tId : String)
    (s d : ℕ) (moved : Todo) (h0 : dId ≠ "") (hne : dId ≠ tId)
    (hs : todos.findIdx? (fun t => t.id == dId) = some s)
    (ht : todos.findIdx? (fun t => t.id == tId) = some d)
    (hm : todos[s]? = some moved) :
    ∃ batch,
      onDropCard (some dId) tId todos =
        ((todos.eraseIdx s).insertIdx d moved, [RemoteOp.batchCommit batch]) ∧
      batch.length = ((todos.eraseIdx s).insertIdx d moved).length ∧
      ∀ (j : ℕ) (it : Todo),
        ((todos.eraseIdx s).insertIdx d moved)[j]? = some it →
        batch[j]? = some (it.id, [("sort", FieldWrite.set (JsVal.num (j : ℚ)))]) := by
  refine ⟨_, onDropCard_eq_of_found todos dId tId s d moved h0 hne hs ht hm, ?_, ?_⟩
  · simp [List.enum_length]
  · intro j it hj
    rw [List.getElem?_map, List.getElem?_enum, hj]
    rfl

/-- C1 witness: the spec scenario — items `a, b, c` at positions 0, 1, 2;
dragging `c` to index 0 yields order `c, a, b` and one batch of three
updates assigning `c = 0`, `a = 1`, `b = 2`. -/
theorem onDropCard_reorders_witness :
    ∃ batch,
      onDropCard (some "c") "a" [mkTodo "a", mkTodo "b", mkTodo "c"] =
        ([mkTodo "c", mkTodo "a", mkTodo "b"], [RemoteOp.batchCommit batch]) ∧
      batch.length = 3 ∧
      batch[0]? = some ("c", [("sort", FieldWrite.set (JsVal.num 0))]) ∧
      batch[1]? = some ("a", [("sort", FieldWrite.set (JsVal.num 1))]) ∧
      batch[2]? = some ("b", [("sort", FieldWrite.set (JsVal.num 2))]) := by
  obtain ⟨batch, h1, h2, h3⟩ :=
    onDropCard_reorders [mkTodo "a", mkTodo "b", mkTodo "c"] "c" "a" 2 0
      (mkTodo "c") (by decide) (by decide) (by decide) (by decide) (by decide)
  refine ⟨batch, h1, by simpa using h2, ?_, ?_, ?_⟩
  · simpa using h3 0 (mkTodo "c") (by decide)
  · simpa using h3 1 (mkTodo "a") (by decide)
  · simpa using h3 2 (mkTodo "b") (by decide)

/-- C2 (amended): the reorder batch contains a position write for every
item of the resulting order — its new 0-based index — so it covers every
item whose position changed, but also every item whose position did not
change: it is a full rewrite of the order, not the minimal changed set. -/
theorem onDropCard_batch_covers_all (todos : List Todo) (dId tId : String)
    (s d : ℕ) (moved : Todo) (h0 : dId ≠ "") (hne : dId ≠ tId)
    (hs : todos.findIdx? (fun t => t.id == dId) = some s)
    (ht : todos.findIdx? (fun t => t.id == tId) = some d)
    (hm : todos[s]? = some moved) :
    ∃ batch,
      (onDropCard (some dId) tId todos).2 = [RemoteOp.batchCommit batch] ∧
      batch.map Prod.fst =
        ((todos.eraseIdx s).insertIdx d moved).map Todo.id ∧
      ∀ (j : ℕ) (it : Todo),
        ((todos.eraseIdx s).insertIdx d moved)[j]? = some it →
        (it.id, [("sort", FieldWrite.set (JsVal.num (j : ℚ)))]) ∈ batch := by
  refine ⟨_, by rw [onDropCard_eq_of_found todos dId tId s d moved h0 hne hs ht hm],
    ?_, ?_⟩
  · rw [List.map_map]
    rw [show (Prod.fst ∘ fun p : ℕ × Todo =>
        (p.2.id, [("sort", FieldWrite.set (JsVal.num (p.1 : ℚ)))])) =
      (Todo.id ∘ Prod.snd) from rfl]
    rw [← List.map_map, List.enum_map_snd]
  · intro j it hj
    have hb : (((todos.eraseIdx s).insertIdx d moved).enum.map
        (fun p => (p.2.id, [("sort", FieldWrite.set (JsVal.num (p.1 : ℚ)))])))[j]? =
        some (it.id, [("sort", FieldWrite.set (JsVal.num (j : ℚ)))]) := by
      rw [List.getElem?_map, List.getElem?_enum, hj]
      rfl
    exact List.getElem?_mem hb

/-- C2 (amended) witness: dragging `c` onto `b` in `a, b, c` produces a
batch whose written ids are exactly `a, c, b` (all three items), with
`b`'s changed position 2 included and `a`'s unchanged position 0 also
included. -/
theorem onDropCard_batch_covers_all_witness :
    ∃ batch,
      (onDropCard (some "c") "b" [mkTodo "a", mkTodo "b", mkTodo "c"]).2 =
        [RemoteOp.batchCommit batch] ∧
      batch.map Prod.fst = ["a", "c", "b"] ∧
      ("b", [("sort", FieldWrite.set (JsVal.num 2))]) ∈ batch ∧
      ("a", [("sort", FieldWrite.set (JsVal.num 0))]) ∈ batch := by
  obtain ⟨batch, h1, h2, h3⟩ :=
    onDropCard_batch_covers_all [mkTodo "a", mkTodo "b", mkTodo "c"] "c" "b" 2 1
      (mkTodo "c") (by decide) (by decide) (by decide) (by decide) (by decide)
  refine ⟨batch, h1, by simpa using h2, ?_, ?_⟩
  · simpa using h3 2 (mkTodo "b") (by decide)
  · simpa using h3 0 (mkTodo "a") (by decide)

/-- `findIndex` over a split list: the first match after a match-free
run sits at the run's length. -/
theorem findIdx?_eq_length_pre {α : Type _} (p : α → Bool) (pre rest : List α)
    (x : α) (hpre : ∀ y ∈ pre, p y = false) (hx : p x = true) :
    List.findIdx? p (pre ++ x :: rest) = some pre.length := by
  rw [List.findIdx?_append, List.findIdx?_eq_none_iff.mpr hpre]
  simp [List.findIdx?_cons, hx]

/-- `splice(i, 1)` at the junction removes the head of the suffix. -/
theorem eraseIdx_at_pre {α : Type _} (pre rest : List α) (x : α) :
    (pre ++ x :: rest).eraseIdx pre.length = pre ++ rest := by
  induction pre with
  | nil => rfl
  | cons h tl ih => simp [List.eraseIdx, ih]

/-- `splice(i, 0, x)` at the junction inserts before the suffix. -/
theorem insertIdx_at_pre {α : Type _} (pre rest : List α) (x : α) :
    List.insertIdx pre.length x (pre ++ rest) = pre ++ x :: rest := by
  induction pre with
  | nil => rfl
  | cons h tl ih => simp [List.insertIdx_succ_cons, ih]

/-- Indexing at the junction of a split list yields the suffix head. -/
theorem getElem?_at_pre {α : Type _} (pre rest : List α) (x : α) :
    (pre ++ x :: rest)[pre.length]? = some x := by
  induction pre with
  | nil => simp
  | cons h tl ih => simpa using ih

/-- Distinctness facts extracted from a list with unique ids, split
around two designated items. -/
theorem nodup_decomp_facts (a b c : List Todo) (x y : Todo)
    (h : ((a ++ x :: (b ++ y :: c)).map Todo.id).Nodup) :
    x.id ≠ y.id ∧
    (∀ z ∈ a, z.id ≠ x.id) ∧ (∀ z ∈ a, z.id ≠ y.id) ∧
    (∀ z ∈ b, z.id ≠ x.id) ∧ (∀ z ∈ b, z.id ≠ y.id) := by
  have hp : List.Pairwise (fun p q : Todo => p.id ≠ q.id)
      (a ++ x :: (b ++ y :: c)) := List.pairwise_map.mp h
  obtain ⟨-, hrest, hcross⟩ := List.pairwise_append.mp hp
  obtain ⟨hx, hbc⟩ := List.pairwise_cons.mp hrest
  obtain ⟨-, -, hcross2⟩ := List.pairwise_append.mp hbc
  refine ⟨?_, ?_, ?_, ?_, ?_⟩
  · exact hx y (by simp)
  · exact fun z hz => hcross z hz x (by simp)
  · exact fun z hz => hcross z hz y (by simp)
  · exact fun z hz => (hx z (List.mem_append_left _ hz)).symm
  · exact fun z hz => hcross2 z hz y (by simp)

/-- Drop computation when the target precedes the dragged item: the
dragged item lands immediately before the target. -/
theorem onDrop_fst_target_before (a b c : List Todo) (g t : Todo)
    (h0 : g.id ≠ "") (hne : g.id ≠ t.id)
    (hga : ∀ x ∈ a, x.id ≠ g.id) (hgb : ∀ x ∈ b, x.id ≠ g.id)
    (hta : ∀ x ∈ a, x.id ≠ t.id) :
    (onDropCard (some g.id) t.id (a ++ t :: (b ++ g :: c))).1 =
      a ++ g :: (t :: (b ++ c)) := by
  have hassoc : a ++ t :: (b ++ g :: c) = (a ++ t :: b) ++ g :: c := by simp
  have hs : (a ++ t :: (b ++ g :: c)).findIdx? (fun z => z.id == g.id) =
      some (a ++ t :: b).length := by
    rw [hassoc]
    refine findIdx?_eq_length_pre _ _ _ _ ?_ (by simp)
    intro y hy
    simp only [List.mem_append, List.mem_cons] at hy
    rcases hy with hy | rfl | hy
    · exact beq_eq_false_iff_ne.mpr (hga y hy)
    · exact beq_eq_false_iff_ne.mpr (fun hh => hne hh.symm)
    · exact beq_eq_false_iff_ne.mpr (hgb y hy)
  have hd : (a ++ t :: (b ++ g :: c)).findIdx? (fun z => z.id == t.id) =
      some a.length :=
    findIdx?_eq_length_pre _ a _ t
      (fun y hy => beq_eq_false_iff_ne.mpr (hta y hy)) (by simp)
  have hget : (a ++ t :: (b ++ g :: c))[(a ++ t :: b).length]? = some g := by
    rw [hassoc]
    exact getElem?_at_pre _ _ _
  have herase : (a ++ t :: (b ++ g :: c)).eraseIdx (a ++ t :: b).length =
      a ++ (t :: (b ++ c)) := by
    rw [hassoc, eraseIdx_at_pre]
    simp
  rw [onDropCard_eq_of_found _ _ _ _ _ g h0 hne hs hd hget]
  show List.insertIdx a.length g ((a ++ t :: (b ++ g :: c)).eraseIdx
    (a ++ t :: b).length) = _
  rw [herase, insertIdx_at_pre]

/-- Drop computation when the dragged item precedes the target: the
dragged item lands immediately after the target. -/
theorem onDrop_fst_source_before (a b c : List Todo) (g t : Todo)
    (h0 : g.id ≠ "") (hne : g.id ≠ t.id)
    (hga : ∀ x ∈ a, x.id ≠ g.id)
    (hta : ∀ x ∈ a, x.id ≠ t.id) (htb : ∀ x ∈ b, x.id ≠ t.id) :
    (onDropCard (some g.id) t.id (a ++ g :: (b ++ t :: c))).1 =
      a ++ (b ++ t :: g :: c) := by
  have hassoc : a ++ g :: (b ++ t :: c) = (a ++ g :: b) ++ t :: c := by simp
  have hs : (a ++ g :: (b ++ t :: c)).findIdx? (fun z => z.id == g.id) =
      some a.length :=
    findIdx?_eq_length_pre _ a _ g
      (fun y hy => beq_eq_false_iff_ne.mpr (hga y hy)) (by simp)
  have hd : (a ++ g :: (b ++ t :: c)).findIdx? (fun z => z.id == t.id) =
      some (a ++ g :: b).length := by
    rw [hassoc]
    refine findIdx?_eq_length_pre _ _ _ _ ?_ (by simp)
    intro y hy
    simp only [List.mem_append, List.mem_cons] at hy
    rcases hy with hy | rfl | hy
    · exact beq_eq_false_iff_ne.mpr (hta y hy)
    · exact beq_eq_false_iff_ne.mpr hne
    · exact beq_eq_false_iff_ne.mpr (htb y hy)
  have hget : (a ++ g :: (b ++ t :: c))[a.length]? = some g :=
    getElem?_at_pre a _ g
  have herase : (a ++ g :: (b ++ t :: c)).eraseIdx a.length =
      a ++ (b ++ t :: c) := eraseIdx_at_pre a _ g
  have hlen : (a ++ g :: b).length = ((a ++ b) ++ [t]).length := by
    simp [Nat.add_assoc]
  have hins : List.insertIdx (a ++ g :: b).length g (a ++ (b ++ t :: c)) =
      a ++ (b ++ t :: g :: c) := by
    rw [hlen, show a ++ (b ++ t :: c) = ((a ++ b) ++ [t]) ++ c by simp,
      insertIdx_at_pre]
    simp
  rw [onDropCard_eq_of_found _ _ _ _ _ g h0 hne hs hd hget]
  show List.insertIdx (a ++ g :: b).length g
    ((a ++ g :: (b ++ t :: c)).eraseIdx a.length) = _
  rw [herase, hins]

/-- C5 (amended): reordering is not idempotent under re-application (the
counterexample re-applies a gesture and the order changes again, because
source and destination indices are recomputed on the already-reordered
list, swapping the dragged item with the target).  What does hold is a
period-two law: for a list with unique ids containing both the dragged
and the target id, applying the same gesture three times gives the same
list as applying it once. -/
theorem onDropCard_reapply_period_two (l : List Todo) (dId tId : String)
    (h0 : dId ≠ "") (hne : dId ≠ tId)
    (hnd : (l.map Todo.id).Nodup)
    (hgm : ∃ g ∈ l, g.id = dId) (htm : ∃ t ∈ l, t.id = tId) :
    (onDropCard (some dId) tId
      ((onDropCard (some dId) tId ((onDropCard (some dId) tId l).1)).1)).1 =
    (onDropCard (some dId) tId l).1 := by
  obtain ⟨g, hgmem, rfl⟩ := hgm
  obtain ⟨t, htmem, rfl⟩ := htm
  have htneg : t ≠ g := by
    rintro rfl
    exact hne rfl
  obtain ⟨s, r, rfl⟩ := List.append_of_mem hgmem
  rcases List.mem_append.mp htmem with hts | htr
  · -- target before dragged item
    obtain ⟨u, v, rfl⟩ := List.append_of_mem hts
    have e0 : (u ++ t :: v) ++ g :: r = u ++ t :: (v ++ g :: r) := by simp
    rw [e0] at hnd ⊢
    obtain ⟨-, hax, hay, -, hby⟩ := nodup_decomp_facts u v r t g hnd
    rw [onDrop_fst_target_before u v r g t h0 hne hay hby hax]
    rw [show u ++ g :: (t :: (v ++ r)) = u ++ g :: (([] : List Todo) ++ t :: (v ++ r))
      by simp]
    rw [onDrop_fst_source_before u [] (v ++ r) g t h0 hne hay hax (by simp)]
    rw [show u ++ (([] : List Todo) ++ t :: g :: (v ++ r)) =
      u ++ t :: (([] : List Todo) ++ g :: (v ++ r)) by simp]
    rw [onDrop_fst_target_before u [] (v ++ r) g t h0 hne hay (by simp) hax]
    simp
  · rcases List.mem_cons.mp htr with h | htr2
    · exact absurd h htneg
    · -- dragged item before target
      obtain ⟨u, v, rfl⟩ := List.append_of_mem htr2
      obtain ⟨-, hax, hay, hbx, hby⟩ := nodup_decomp_facts s u v g t hnd
      have haxg : ∀ z ∈ s ++ u, z.id ≠ g.id := by
        intro z hz
        rcases List.mem_append.mp hz with h | h
        · exact hax z h
        · exact hbx z h
      have haxt : ∀ z ∈ s ++ u, z.id ≠ t.id := by
        intro z hz
        rcases List.mem_append.mp hz with h | h
        · exact hay z h
        · exact hby z h
      rw [onDrop_fst_source_before s u v g t h0 hne hax hay hby]
      rw [show s ++ (u ++ t :: g :: v) =
        (s ++ u) ++ t :: (([] : List Todo) ++ g :: v) by simp]
      rw [onDrop_fst_target_before (s ++ u) [] v g t h0 hne haxg (by simp) haxt]
      rw [show (s ++ u) ++ g :: (t :: (([] : List Todo) ++ v)) =
        (s ++ u) ++ g :: (([] : List Todo) ++ t :: v) by simp]
      rw [onDrop_fst_source_before (s ++ u) [] v g t h0 hne haxg haxt (by simp)]
      simp

/-- C5 (amended) witness: for `a, b, c` with `c` dragged onto `a`,
applying the gesture three times yields the same list as applying it
once. -/
theorem onDropCard_reapply_period_two_witness :
    (onDropCard (some "c") "a"
      ((onDropCard (some "c") "a"
        ((onDropCard (some "c") "a" [mkTodo "a", mkTodo "b", mkTodo "c"]).1)).1)).1 =
    (onDropCard (some "c") "a" [mkTodo "a", mkTodo "b", mkTodo "c"]).1 :=
  onDropCard_reapply_period_two [mkTodo "a", mkTodo "b", mkTodo "c"] "c" "a"
    (by decide) (by decide) (by decide)
    ⟨mkTodo "c", by decide, rfl⟩ ⟨mkTodo "a", by decide, rfl⟩

end Condo
